import Mathlib

/-!
# Verification of `miapy/data/creation/callback.py`

A shallow embedding of the callback layer used while building a dataset
archive.  The callbacks react to lifecycle events (`on_start`,
`on_subject_start`, `on_image_file`, `on_gt_file`, `on_subject_end`,
`on_end`) by emitting operations against an injected key-addressed writer.
We model the writer interactions as explicit operation lists, stateful
callbacks as explicit state-passing step functions, and Python exceptions
as `Option PyError` results.

Paths are modelled as lists of components (POSIX absolute paths with the
leading separator elided), numpy arrays and image geometry values are
carried opaquely (the callbacks only copy them), and machine integers are
`Nat` with explicit `% 2 ^ 8` where the numpy `uint8` dtype matters.
-/

/-! ## Decimal strings: models of Python `str(n)` and `'{:0w}'.format(n)` -/

/-- Little-endian decimal digits of `n` (empty for `0`), driven by fuel so
that it computes by kernel reduction.  `decDigitsAux fuel n` is correct
whenever `n ≤ fuel`. -/
def decDigitsAux : Nat → Nat → List Nat
  | 0, _ => []
  | _ + 1, 0 => []
  | fuel + 1, m + 1 => (m + 1) % 10 :: decDigitsAux fuel ((m + 1) / 10)

/-- Little-endian decimal digits of `n` (empty for `0`). -/
def decDigits (n : Nat) : List Nat := decDigitsAux n n

/-- Model of Python `str()` applied to a nonnegative integer: the
big-endian decimal digit characters. -/
def pyStr (n : Nat) : String :=
  if n = 0 then "0"
  else String.mk ((decDigits n).reverse.map (fun d => Char.ofNat (48 + d)))

/-- Model of Python `'{:0w}'.format(n)` for a nonnegative integer `n`:
left-pad `str(n)` with `'0'` to width `w` (no truncation when `str(n)` is
already at least `w` characters wide). -/
def zeroPad (w : Nat) (n : Nat) : String :=
  String.mk (List.replicate (w - (pyStr n).length) '0' ++ (pyStr n).data)

/-- The zero-padded index string computed by
`WriteDataCallback.on_subject_end`:
`max_digits = len(str(len(subject_files)))` and
`index_str = ('{:0' + str(max_digits) + '}').format(subject_index)`. -/
def WriteDataCallback.indexStr (subjectCount subjectIndex : Nat) : String :=
  zeroPad (pyStr subjectCount).length subjectIndex

/-! ### Facts about the decimal-string model -/

theorem decDigitsAux_eq_digits (fuel : Nat) :
    ∀ n, n ≤ fuel → decDigitsAux fuel n = Nat.digits 10 n := by
  induction fuel with
  | zero =>
    intro n hn
    interval_cases n
    simp [decDigitsAux]
  | succ fuel ih =>
    intro n hn
    match n with
    | 0 => simp [decDigitsAux]
    | m + 1 =>
      have hdiv : (m + 1) / 10 ≤ fuel := by
        have := Nat.div_lt_self (Nat.succ_pos m) (by norm_num : 1 < 10)
        omega
      rw [decDigitsAux, ih _ hdiv, Nat.digits_def' (by norm_num : 1 < 10) (Nat.succ_pos m)]

theorem decDigits_eq_digits (n : Nat) : decDigits n = Nat.digits 10 n :=
  decDigitsAux_eq_digits n n le_rfl

theorem pyStr_length (n : Nat) :
    (pyStr n).length = if n = 0 then 1 else Nat.log 10 n + 1 := by
  unfold pyStr
  split
  · rfl
  · next h =>
    show (String.mk _).length = _
    simp only [String.length]
    rw [List.length_map, List.length_reverse, decDigits_eq_digits,
      Nat.digits_len 10 n (by norm_num) h]

theorem pyStr_length_pos (n : Nat) : 0 < (pyStr n).length := by
  rw [pyStr_length]; split <;> omega

theorem pyStr_length_mono {m n : Nat} (h : m ≤ n) :
    (pyStr m).length ≤ (pyStr n).length := by
  rw [pyStr_length, pyStr_length]
  have := Nat.log_mono_right (b := 10) h
  split <;> split <;> omega

/-- Decimal value of a big-endian digit list. -/
def decValue (l : List Nat) : Nat := l.foldl (fun acc d => acc * 10 + d) 0

/-- Decimal value read back from a string of digit characters. -/
def strValue (s : String) : Nat := decValue (s.data.map (fun c => c.toNat - 48))

theorem decValue_foldl (l : List Nat) (a : Nat) :
    l.foldl (fun acc d => acc * 10 + d) a =
      a * 10 ^ l.length + l.foldl (fun acc d => acc * 10 + d) 0 := by
  induction l generalizing a with
  | nil => simp
  | cons d l ih =>
    simp only [List.foldl_cons, List.length_cons]
    rw [ih (a * 10 + d), ih (0 * 10 + d)]
    ring

theorem decValue_replicate_zero_append (k : Nat) (l : List Nat) :
    decValue (List.replicate k 0 ++ l) = decValue l := by
  induction k with
  | zero => simp
  | succ k ih =>
    simpa [decValue, List.replicate_succ] using ih

theorem decValue_reverse_digits (n : Nat) :
    decValue (Nat.digits 10 n).reverse = n := by
  have hfold : ∀ l : List Nat,
      List.foldr (fun d acc => acc * 10 + d) 0 l = Nat.ofDigits 10 l := by
    intro l
    induction l with
    | nil => simp [Nat.ofDigits]
    | cons d l ih =>
      simp only [List.foldr_cons, ih, Nat.ofDigits_cons]
      ring
  unfold decValue
  rw [List.foldl_reverse]
  have := hfold (Nat.digits 10 n)
  have hd := Nat.ofDigits_digits 10 n
  simp only [this]
  exact_mod_cast hd

theorem strValue_pyStr (n : Nat) : strValue (pyStr n) = n := by
  unfold strValue pyStr
  split
  · next h => subst h; rfl
  · next h =>
    show decValue (((decDigits n).reverse.map (fun d => Char.ofNat (48 + d))).map
      (fun c => c.toNat - 48)) = n
    rw [List.map_map]
    have hmem : ∀ d ∈ (decDigits n).reverse,
        ((fun c : Char => c.toNat - 48) ∘ fun d => Char.ofNat (48 + d)) d = id d := by
      intro d hd
      have hd' : d ∈ Nat.digits 10 n := by
        rw [decDigits_eq_digits] at hd
        exact List.mem_reverse.mp hd
      have hlt : d < 10 := Nat.digits_lt_base (by norm_num) hd'
      have : ∀ d, d < 10 → (Char.ofNat (48 + d)).toNat - 48 = d := by decide
      simpa using this d hlt
    rw [List.map_congr_left hmem, List.map_id, decDigits_eq_digits,
      decValue_reverse_digits]

theorem strValue_zeroPad (w n : Nat) : strValue (zeroPad w n) = n := by
  unfold strValue zeroPad
  show decValue ((List.replicate (w - (pyStr n).length) '0' ++ (pyStr n).data).map
    (fun c => c.toNat - 48)) = n
  rw [List.map_append, List.map_replicate, (by decide : '0'.toNat - 48 = 0),
    decValue_replicate_zero_append]
  exact strValue_pyStr n

theorem zeroPad_length (w n : Nat) (h : (pyStr n).length ≤ w) :
    (zeroPad w n).length = w := by
  unfold zeroPad
  show (List.replicate (w - (pyStr n).length) '0' ++ (pyStr n).data).length = w
  rw [List.length_append, List.length_replicate]
  have : (pyStr n).data.length = (pyStr n).length := rfl
  omega

/-- C1: for every subject count `N ≥ 1` and every `subject_index < N`, the
index string computed by `WriteDataCallback.on_subject_end` — zero-padding
`subject_index` to width `len(str(N))` — has exactly `len(str(N))` digits,
and the strings produced for distinct subject indices below `N` are
pairwise distinct. -/
theorem wdc_index_str_width_and_distinct (N i : Nat) (_hN : 1 ≤ N) (hi : i < N) :
    (WriteDataCallback.indexStr N i).length = (pyStr N).length ∧
      ∀ j, j < N → j ≠ i →
        WriteDataCallback.indexStr N j ≠ WriteDataCallback.indexStr N i := by
  constructor
  · exact zeroPad_length _ _ (pyStr_length_mono (Nat.le_of_lt hi))
  · intro j hj hne heq
    have := congrArg strValue heq
    rw [WriteDataCallback.indexStr, WriteDataCallback.indexStr,
      strValue_zeroPad, strValue_zeroPad] at this
    exact hne this

/-- Concrete instantiation of `wdc_index_str_width_and_distinct` at
`N = 10`, `i = 3`, `j = 7`. -/
theorem wdc_index_str_witness :
    (1 ≤ 10 ∧ 3 < 10) ∧
      ((WriteDataCallback.indexStr 10 3).length = (pyStr 10).length ∧
        WriteDataCallback.indexStr 10 7 ≠ WriteDataCallback.indexStr 10 3) := by
  refine ⟨by decide, ?_⟩
  have h := wdc_index_str_width_and_distinct 10 3 (by decide) (by decide)
  exact ⟨h.1, h.2 7 (by decide) (by decide)⟩

/-! ## Paths: models of `os.path.commonpath` and `os.path.relpath` -/

/-- A filesystem path, as its list of components.  All paths handled by the
callbacks are absolute POSIX paths; the leading separator is elided. -/
abbrev PyPath : Type := List String

/-- Longest common component-prefix of two paths (the two-path core of
`posixpath.commonpath` / `genericpath.commonprefix`). -/
def commonPrefix2 : PyPath → PyPath → PyPath
  | a :: as, b :: bs => if a = b then a :: commonPrefix2 as bs else []
  | _, _ => []

/-- Model of `os.path.commonpath` (posixpath) on absolute paths given as
component lists: the longest common component-prefix of all of them.
Python raises `ValueError` on an empty input; the callers below never pass
an empty list, and the model returns `[]` there. -/
def commonpath : List PyPath → PyPath
  | [] => []
  | p :: ps => ps.foldl commonPrefix2 p

/-- Render a path back to its Python string form (absolute POSIX path). -/
def pathString (p : PyPath) : String :=
  "/" ++ String.intercalate "/" p

/-- Model of `os.path.relpath(path, start)` (posixpath) for absolute
paths: strip the common component-prefix, prepend one `..` per remaining
component of `start`, and join; `.` when nothing remains. -/
def relpath (path start : PyPath) : String :=
  let i := (commonPrefix2 start path).length
  let rel := List.replicate (start.length - i) ".." ++ List.drop i path
  if rel.isEmpty then "." else String.intercalate "/" rel

/-- `p` is an ancestor (component-wise prefix) of `q`. -/
def isAncestorOf (p q : PyPath) : Prop := ∃ t : List String, p ++ t = q

/-! ## The writer model

The injected writer supports `reserve(key, shape, dtype)`,
`fill(key, value, index_expression)` and `write(key, value, dtype)`.  We
record the calls a callback makes as a list of `WriterOp`. -/

/-- The numpy/python dtypes that appear in the source file. -/
inductive Dtype where
  | uint8
  | float
  | str
  deriving DecidableEq, Repr

/-- Model of numpy storage into a `np.uint8` array: each stored component
is reduced modulo `2 ^ 8`. -/
def uint8Store (v : Nat) : Nat := v % 2 ^ 8

/-- A numpy array (a subject's image or label data).  The callbacks only
pass these through to the writer, so they are modelled as opaque tokens. -/
structure NpArray where
  id : Nat
  deriving DecidableEq, Repr

/-- Geometry component values (direction cosines, spacings) are
floating-point numbers that the callbacks copy without computing on them;
they are modelled as exact rationals. -/
abbrev FloatVal : Type := Rat

/-- A value handed to the writer. -/
inductive Value where
  | vstr (s : String)
  | vstrs (l : List String)
  | vnats (l : List Nat)
  | vfloats (l : List FloatVal)
  | varr (a : NpArray)
  deriving DecidableEq, Repr

/-- Modelled from the spec: `miapy.data.indexexpression.IndexExpression`
is not under `src/`; the spec describes it as "an addressing value
identifying a sub-region of a reserved array (single axis or multiple
axes) — used to target one subject's row, or one (subject, sequence)
cell".  We model it as the addressed axes paired with the index targeted
on each axis. -/
structure IndexExpression where
  axes : List Nat
  indexing : List Nat
  deriving DecidableEq, Repr

/-- `IndexExpression(subject_index)`: target one row along axis 0. -/
def IndexExpression.single (i : Nat) : IndexExpression := ⟨[0], [i]⟩

/-- `IndexExpression(indexing=[i, j], axis=(0, 1))`: target one cell. -/
def IndexExpression.cell (i j : Nat) : IndexExpression := ⟨[0, 1], [i, j]⟩

/-- The index expression addresses only positions inside an array of the
given shape: axes are pairwise matched with indices, every axis exists in
the shape and every index is below that axis' extent. -/
def IndexExpression.inBounds (ie : IndexExpression) (shape : List Nat) : Bool :=
  ie.axes.length == ie.indexing.length &&
    (ie.axes.zip ie.indexing).all (fun ai =>
      decide (ai.1 < shape.length) && decide (ai.2 < shape.getD ai.1 0))

/-- One call against the injected writer. -/
inductive WriterOp where
  | reserve (key : String) (shape : List Nat) (dtype : Dtype)
  | fill (key : String) (value : Value) (index : IndexExpression)
  | write (key : String) (value : Value) (dtype : Option Dtype)
  deriving DecidableEq, Repr

def WriterOp.key : WriterOp → String
  | .reserve k _ _ => k
  | .fill k _ _ => k
  | .write k _ _ => k

def WriterOp.isReserve : WriterOp → Bool
  | .reserve _ _ _ => true
  | _ => false

def WriterOp.isFill : WriterOp → Bool
  | .fill _ _ _ => true
  | _ => false

def WriterOp.isWrite : WriterOp → Bool
  | .write _ _ _ => true
  | _ => false

/-! ## The event parameter bundle and the driver's hooks -/

/-- A subject descriptor: the per-subject sequence files
(`get_sequences().values()`, in order) and the optional ground-truth
files (`get_gts()`, `None` or its values in order). -/
structure SubjectFile where
  sequences : List PyPath
  gts : Option (List PyPath)
  deriving DecidableEq

/-- A loaded SimpleITK image: `GetSize()`, `GetDirection()`,
`GetSpacing()`. -/
structure SitkImage where
  size : List Nat
  direction : List FloatVal
  spacing : List FloatVal
  deriving DecidableEq, Repr

/-- The `raw_image` bundle entry: either a `sitk.Image` or some other
object (which fails the `isinstance` check). -/
inductive RawImage where
  | sitk (img : SitkImage)
  | notImage (tag : Nat)
  deriving DecidableEq, Repr

def RawImage.isSitk : RawImage → Bool
  | .sitk _ => true
  | .notImage _ => false

/-- The event parameter bundle (`params: dict`).  The recognized keys
(spec §3) are modelled as a total record; the driver contract guarantees
that the keys each hook reads are present at that event. -/
structure Bundle where
  subject_files : List SubjectFile
  subject_index : Nat
  subject : String
  images : NpArray
  labels : NpArray
  has_gt : Bool
  raw_image : RawImage
  file : PyPath
  sequence_index : Nat
  gt_index : Nat
  sequence_names : List String
  gt_names : List String
  deriving DecidableEq

/-- The six lifecycle hooks. -/
inductive HookName where
  | on_start
  | on_end
  | on_subject_start
  | on_subject_end
  | on_gt_file
  | on_image_file
  deriving DecidableEq, Repr

/-- A Python exception escaping a hook. -/
inductive PyError where
  | valueError (msg : String)
  | typeError (msg : String)
  deriving DecidableEq, Repr

/-! ## `Callback` (base class): every hook is `pass` -/

/-- The base `Callback`: each of the six hooks does nothing — no writer
operation, no exception. -/
def Callback.hook (h : HookName) (_params : Bundle) : List WriterOp × Option PyError :=
  match h with
  | .on_start => ([], none)
  | .on_end => ([], none)
  | .on_subject_start => ([], none)
  | .on_subject_end => ([], none)
  | .on_gt_file => ([], none)
  | .on_image_file => ([], none)

/-! ## `WriteDataCallback` -/

def WriteDataCallback.SEQ_PATH : String := "data/sequences"

def WriteDataCallback.GT_PATH : String := "data/gts"

/-- `WriteDataCallback.on_subject_end`: write the subject's image array to
`data/sequences/<index>` and, when `has_gt`, the label array to
`data/gts/<index>`, with `<index>` the zero-padded subject index. -/
def WriteDataCallback.on_subject_end (params : Bundle) : List WriterOp :=
  let index_str := WriteDataCallback.indexStr params.subject_files.length params.subject_index
  let seqWrite := WriterOp.write (WriteDataCallback.SEQ_PATH ++ "/" ++ index_str)
    (Value.varr params.images) none
  if params.has_gt then
    [seqWrite,
      WriterOp.write (WriteDataCallback.GT_PATH ++ "/" ++ index_str)
        (Value.varr params.labels) none]
  else
    [seqWrite]

/-! ## `WriteSubjectCallback` -/

def WriteSubjectCallback.SUBJECT : String := "meta/subjects"

def WriteSubjectCallback.on_start (params : Bundle) : List WriterOp :=
  [WriterOp.reserve WriteSubjectCallback.SUBJECT [params.subject_files.length] Dtype.str]

def WriteSubjectCallback.on_subject_start (params : Bundle) : List WriterOp :=
  [WriterOp.fill WriteSubjectCallback.SUBJECT (Value.vstr params.subject)
    (IndexExpression.single params.subject_index)]

/-! ## `WriteImageInformationCallback` -/

def WriteImageInformationCallback.SHAPE : String := "meta/shapes"

def WriteImageInformationCallback.DIRECTION : String := "meta/directions"

def WriteImageInformationCallback.SPACING : String := "meta/spacing"

def WriteImageInformationCallback.on_start (params : Bundle) : List WriterOp :=
  let subject_count := params.subject_files.length
  [WriterOp.reserve WriteImageInformationCallback.SHAPE [subject_count, 3] Dtype.uint8,
    WriterOp.reserve WriteImageInformationCallback.DIRECTION [subject_count, 9] Dtype.float,
    WriterOp.reserve WriteImageInformationCallback.SPACING [subject_count, 3] Dtype.float]

/-- `WriteImageInformationCallback.on_image_file`, with the instance field
`prev_subject_index` passed and returned explicitly.  Returns the new
state, the writer calls performed, and the exception raised, if any. -/
def WriteImageInformationCallback.on_image_file (prev_subject_index : Option Nat)
    (params : Bundle) : Option Nat × List WriterOp × Option PyError :=
  if prev_subject_index = some params.subject_index then
    (prev_subject_index, [], none)
  else
    match params.raw_image with
    | RawImage.notImage _ =>
      (prev_subject_index, [],
        some (PyError.valueError "'raw_image' must be of type 'Image'"))
    | RawImage.sitk img =>
      (some params.subject_index,
        [WriterOp.fill WriteImageInformationCallback.SHAPE (Value.vnats img.size)
            (IndexExpression.single params.subject_index),
          WriterOp.fill WriteImageInformationCallback.DIRECTION (Value.vfloats img.direction)
            (IndexExpression.single params.subject_index),
          WriterOp.fill WriteImageInformationCallback.SPACING (Value.vfloats img.spacing)
            (IndexExpression.single params.subject_index)],
        none)

/-! ## `WriteFilesCallback` -/

def WriteFilesCallback.SEQ_FILES : String := "meta/sequence_files"

def WriteFilesCallback.GT_FILES : String := "meta/gt_files"

def WriteFilesCallback.FILE_ROOT : String := "meta/file_root"

/-- All files referenced by one subject: the sequence files, extended by
the ground-truth files when `get_gts()` is not `None`. -/
def subjectAllFiles (sf : SubjectFile) : List PyPath :=
  sf.sequences ++ (match sf.gts with | some gts => gts | none => [])

/-- `WriteFilesCallback._get_common_path`: the common path of each
subject's files, then the common path across subjects. -/
def WriteFilesCallback.getCommonPath (subject_files : List SubjectFile) : PyPath :=
  commonpath (subject_files.map (fun sf => commonpath (subjectAllFiles sf)))

/-- `WriteFilesCallback.on_start`: compute and write the file root,
reserve the sequence-file table and, when `has_gt`, the gt-file table.
Returns the new `file_root` instance field and the writer calls. -/
def WriteFilesCallback.on_start (params : Bundle) : Option PyPath × List WriterOp :=
  let file_root := WriteFilesCallback.getCommonPath params.subject_files
  let ops := [WriterOp.write WriteFilesCallback.FILE_ROOT (Value.vstr (pathString file_root))
      (some Dtype.str),
    WriterOp.reserve WriteFilesCallback.SEQ_FILES
      [params.subject_files.length, params.sequence_names.length] Dtype.str]
  (some file_root,
    if params.has_gt then
      ops ++ [WriterOp.reserve WriteFilesCallback.GT_FILES
        [params.subject_files.length, params.gt_names.length] Dtype.str]
    else ops)

/-- `WriteFilesCallback.on_image_file`: fill the file's path relative to
the stored root into cell `(subject_index, sequence_index)` of
`meta/sequence_files`.  When `on_start` has not run, `self.file_root` is
still `None` and `os.path.relpath(file, None)` raises `TypeError`. -/
def WriteFilesCallback.on_image_file (file_root : Option PyPath)
    (params : Bundle) : List WriterOp × Option PyError :=
  match file_root with
  | none => ([], some (PyError.typeError "expected str, bytes or os.PathLike object, not NoneType"))
  | some root =>
    ([WriterOp.fill WriteFilesCallback.SEQ_FILES (Value.vstr (relpath params.file root))
        (IndexExpression.cell params.subject_index params.sequence_index)], none)

/-- `WriteFilesCallback.on_gt_file`: same, into `meta/gt_files` at cell
`(subject_index, gt_index)`. -/
def WriteFilesCallback.on_gt_file (file_root : Option PyPath)
    (params : Bundle) : List WriterOp × Option PyError :=
  match file_root with
  | none => ([], some (PyError.typeError "expected str, bytes or os.PathLike object, not NoneType"))
  | some root =>
    ([WriterOp.fill WriteFilesCallback.GT_FILES (Value.vstr (relpath params.file root))
        (IndexExpression.cell params.subject_index params.gt_index)], none)

/-! ## Example fixtures used by concrete witnesses and counterexamples -/

/-- A concrete loaded image. -/
def exImage : SitkImage :=
  ⟨[160, 192, 160], [1, 0, 0, 0, 1, 0, 0, 0, 1], [1, 1, 1]⟩

/-- A concrete subject descriptor. -/
def exSubject : SubjectFile :=
  ⟨[["a", "b", "c.txt"]], some [["a", "b", "gt.txt"]]⟩

/-- A concrete event parameter bundle. -/
def exBundle : Bundle where
  subject_files := [exSubject]
  subject_index := 0
  subject := "Subject_0"
  images := ⟨0⟩
  labels := ⟨1⟩
  has_gt := true
  raw_image := RawImage.sitk exImage
  file := ["a", "b", "c.txt"]
  sequence_index := 0
  gt_index := 0
  sequence_names := ["flair"]
  gt_names := ["gt"]

/-- A bundle whose `raw_image` is not a `sitk.Image`. -/
def exBadBundle : Bundle :=
  { exBundle with subject_index := 1, raw_image := RawImage.notImage 0 }

/-! ## C8: the base `Callback` is a no-op -/

/-- C8: calling any of the six hooks on a plain `Callback`, with any
parameter bundle, performs no writer operation and raises no exception. -/
theorem base_callback_noop (h : HookName) (params : Bundle) :
    Callback.hook h params = ([], none) := by
  cases h <;> rfl

/-! ## C6: what `WriteDataCallback.on_subject_end` writes -/

/-- The key `'{}/{}'.format(SEQ_PATH, index_str)`. -/
def WriteDataCallback.seqKey (b : Bundle) : String :=
  WriteDataCallback.SEQ_PATH ++ "/" ++
    WriteDataCallback.indexStr b.subject_files.length b.subject_index

/-- The key `'{}/{}'.format(GT_PATH, index_str)`. -/
def WriteDataCallback.gtKey (b : Bundle) : String :=
  WriteDataCallback.GT_PATH ++ "/" ++
    WriteDataCallback.indexStr b.subject_files.length b.subject_index

/-- C6: `on_subject_end` writes the bundle's image array as a whole value
to `data/sequences/<index>`, writes the label array to `data/gts/<index>`
exactly when `has_gt` is true, performs no reserve and no fill, and
touches no other key. -/
theorem wdc_on_subject_end_spec (b : Bundle) :
    (b.has_gt = true →
      WriteDataCallback.on_subject_end b =
        [WriterOp.write (WriteDataCallback.seqKey b) (Value.varr b.images) none,
          WriterOp.write (WriteDataCallback.gtKey b) (Value.varr b.labels) none]) ∧
    (b.has_gt = false →
      WriteDataCallback.on_subject_end b =
        [WriterOp.write (WriteDataCallback.seqKey b) (Value.varr b.images) none]) ∧
    (∀ op ∈ WriteDataCallback.on_subject_end b,
      op.isWrite = true ∧
        (op.key = WriteDataCallback.seqKey b ∨ op.key = WriteDataCallback.gtKey b)) := by
  refine ⟨?_, ?_, ?_⟩
  · intro hgt
    simp [WriteDataCallback.on_subject_end, WriteDataCallback.seqKey,
      WriteDataCallback.gtKey, hgt]
  · intro hgt
    simp [WriteDataCallback.on_subject_end, WriteDataCallback.seqKey,
      WriteDataCallback.gtKey, hgt]
  · intro op hop
    cases hgt : b.has_gt <;>
      simp only [WriteDataCallback.on_subject_end, hgt, if_true, if_false,
        List.mem_cons, List.mem_singleton, Bool.false_eq_true] at hop
    · rcases hop with rfl | h
      · exact ⟨rfl, Or.inl rfl⟩
      · cases h
    · rcases hop with rfl | rfl | h
      · exact ⟨rfl, Or.inl rfl⟩
      · exact ⟨rfl, Or.inr rfl⟩
      · cases h

/-- Concrete instantiation of `wdc_on_subject_end_spec` on a bundle with
`has_gt = true`. -/
theorem wdc_on_subject_end_witness :
    exBundle.has_gt = true ∧
      WriteDataCallback.on_subject_end exBundle =
        [WriterOp.write (WriteDataCallback.seqKey exBundle) (Value.varr exBundle.images) none,
          WriterOp.write (WriteDataCallback.gtKey exBundle) (Value.varr exBundle.labels) none] :=
  ⟨rfl, (wdc_on_subject_end_spec exBundle).1 rfl⟩

/-! ## C9: dtypes reserved by `WriteImageInformationCallback.on_start` -/

/-- C9: `on_start` reserves `meta/shapes` with element dtype `np.uint8`
(so a stored size component survives only modulo `2 ^ 8`), and reserves
`meta/directions` and `meta/spacing` with floating-point dtype. -/
theorem wic_on_start_reserve_dtypes (b : Bundle) :
    WriteImageInformationCallback.on_start b =
      [WriterOp.reserve "meta/shapes" [b.subject_files.length, 3] Dtype.uint8,
        WriterOp.reserve "meta/directions" [b.subject_files.length, 9] Dtype.float,
        WriterOp.reserve "meta/spacing" [b.subject_files.length, 3] Dtype.float] ∧
    (∀ v : Nat, uint8Store v = v % 2 ^ 8) ∧ uint8Store 256 = 0 ∧ uint8Store 260 = 4 :=
  ⟨rfl, fun _ => rfl, rfl, rfl⟩

/-! ## C4: the type-validation error of `on_image_file` -/

/-- C4: `WriteImageInformationCallback.on_image_file` raises a
`ValueError` exactly when the call is not skipped by the same-subject
guard and `raw_image` is not a `sitk.Image`; a raising call performs no
writer fill and leaves `prev_subject_index` unchanged. -/
theorem wic_on_image_file_error_iff (prev : Option Nat) (b : Bundle) :
    ((∃ msg, (WriteImageInformationCallback.on_image_file prev b).2.2 =
        some (PyError.valueError msg)) ↔
      (¬ prev = some b.subject_index ∧ b.raw_image.isSitk = false)) ∧
    ((WriteImageInformationCallback.on_image_file prev b).2.2 ≠ none →
      (WriteImageInformationCallback.on_image_file prev b).2.1 = [] ∧
      (WriteImageInformationCallback.on_image_file prev b).1 = prev) := by
  by_cases hp : prev = some b.subject_index
  · refine ⟨?_, ?_⟩
    · simp [WriteImageInformationCallback.on_image_file, hp]
    · intro hne
      simp [WriteImageInformationCallback.on_image_file, hp] at hne
  · cases hr : b.raw_image with
    | notImage t =>
      refine ⟨?_, ?_⟩
      · simp [WriteImageInformationCallback.on_image_file, hp, hr, RawImage.isSitk]
      · intro _
        simp [WriteImageInformationCallback.on_image_file, hp, hr]
    | sitk img =>
      refine ⟨?_, ?_⟩
      · simp [WriteImageInformationCallback.on_image_file, hp, hr, RawImage.isSitk]
      · intro hne
        simp [WriteImageInformationCallback.on_image_file, hp, hr] at hne

/-- Concrete instantiation of `wic_on_image_file_error_iff`: a first-seen
subject whose `raw_image` fails the `isinstance` check raises a
`ValueError` and fills nothing. -/
theorem wic_on_image_file_error_witness :
    (∃ msg, (WriteImageInformationCallback.on_image_file (some 0) exBadBundle).2.2 =
      some (PyError.valueError msg)) ∧
    (WriteImageInformationCallback.on_image_file (some 0) exBadBundle).2.1 = [] := by
  have h := wic_on_image_file_error_iff (some 0) exBadBundle
  exact ⟨h.1.mpr (by decide), (h.2 (by decide)).1⟩

/-! ## C2: the once-per-subject guard of `on_image_file` -/

/-- The three metadata fills `on_image_file` performs for a first-seen
subject. -/
def wicFills (img : SitkImage) (i : Nat) : List WriterOp :=
  [WriterOp.fill WriteImageInformationCallback.SHAPE (Value.vnats img.size)
      (IndexExpression.single i),
    WriterOp.fill WriteImageInformationCallback.DIRECTION (Value.vfloats img.direction)
      (IndexExpression.single i),
    WriterOp.fill WriteImageInformationCallback.SPACING (Value.vfloats img.spacing)
      (IndexExpression.single i)]

/-- A sequence of calls to `on_image_file` on one callback instance: the
writer calls and the exception of each call, threading
`prev_subject_index`. -/
def WICRun (prev_subject_index : Option Nat) :
    List Bundle → List (List WriterOp × Option PyError)
  | [] => []
  | b :: rest =>
    let r := WriteImageInformationCallback.on_image_file prev_subject_index b
    r.2 :: WICRun r.1 rest

/-- The value of `prev_subject_index` right before the `k`-th call of a
call sequence started on a fresh instance (`prev_subject_index = None`). -/
def WICStateBefore (calls : List Bundle) (k : Nat) : Option Nat :=
  (calls.take k).foldl
    (fun st c => (WriteImageInformationCallback.on_image_file st c).1) none

/-- Full case analysis of one `on_image_file` call. -/
theorem wic_step_spec (prev : Option Nat) (b : Bundle) :
    (prev = some b.subject_index →
      WriteImageInformationCallback.on_image_file prev b = (prev, [], none)) ∧
    (¬ prev = some b.subject_index →
      (∀ img, b.raw_image = RawImage.sitk img →
        WriteImageInformationCallback.on_image_file prev b =
          (some b.subject_index, wicFills img b.subject_index, none)) ∧
      (b.raw_image.isSitk = false →
        WriteImageInformationCallback.on_image_file prev b =
          (prev, [], some (PyError.valueError "'raw_image' must be of type 'Image'")))) := by
  refine ⟨fun hp => ?_, fun hp => ⟨fun img hr => ?_, fun hr => ?_⟩⟩
  · simp [WriteImageInformationCallback.on_image_file, hp]
  · simp [WriteImageInformationCallback.on_image_file, hp, hr, wicFills]
  · cases him : b.raw_image with
    | sitk img => rw [him] at hr; simp [RawImage.isSitk] at hr
    | notImage t => simp [WriteImageInformationCallback.on_image_file, hp, him]

theorem wicRun_get (calls : List Bundle) :
    ∀ (prev : Option Nat) (k : Nat) (b : Bundle), calls.get? k = some b →
      (WICRun prev calls).get? k =
        some ((WriteImageInformationCallback.on_image_file
          ((calls.take k).foldl
            (fun st c => (WriteImageInformationCallback.on_image_file st c).1) prev) b).2) := by
  induction calls with
  | nil =>
    intro prev k b h
    simp at h
  | cons c rest ih =>
    intro prev k b h
    cases k with
    | zero =>
      simp only [List.get?_cons_zero, Option.some.injEq] at h
      subst h
      simp [WICRun]
    | succ k =>
      simp only [List.get?_cons_succ] at h
      show (WICRun prev (c :: rest)).get? (k + 1) = _
      rw [WICRun]
      simp only [List.get?_cons_succ, List.take_succ_cons, List.foldl_cons]
      exact ih _ k b h

/-- A bundle for the second subject with a valid image. -/
def exBundleSecondSubject : Bundle := { exBundle with subject_index := 1 }

/-- C2 (counterexample): on the three-call sequence
`[exBundle (subject 0, valid image), exBadBundle (subject 1, invalid),
exBundleSecondSubject (subject 1, valid image)]`, the second call's
subject index differs from both the first call's and the recorded one,
yet it performs no fill (it raises); and the third call's subject index
equals the immediately preceding call's, yet it performs the three
fills.  This refutes the claim that a call with a new subject index
always performs the three fills and that a call repeating the preceding
call's subject index is always a no-op. -/
theorem wic_on_image_file_cex :
    (exBadBundle.subject_index ≠ exBundle.subject_index ∧
      (WICRun none [exBundle, exBadBundle, exBundleSecondSubject]).get? 1 =
        some ([], some (PyError.valueError "'raw_image' must be of type 'Image'"))) ∧
    (exBundleSecondSubject.subject_index = exBadBundle.subject_index ∧
      (WICRun none [exBundle, exBadBundle, exBundleSecondSubject]).get? 2 =
        some (wicFills exImage 1, none)) := by
  decide

/-- C2 (amended): for every sequence of calls to `on_image_file` on a
fresh instance, the `k`-th call behaves according to the *recorded*
subject index (the one remembered from the last successful write, `None`
initially): if it equals the call's `subject_index` the call is a
complete no-op; otherwise the call performs the three metadata fills and
records the index when `raw_image` is a `sitk.Image`, and raises a
`ValueError` — performing no fill and recording nothing — when it is
not. -/
theorem wic_on_image_file_amended (calls : List Bundle) (k : Nat) (b : Bundle)
    (hk : calls.get? k = some b) :
    (WICRun none calls).get? k =
      some ((WriteImageInformationCallback.on_image_file (WICStateBefore calls k) b).2) ∧
    (WICStateBefore calls k = some b.subject_index →
      WriteImageInformationCallback.on_image_file (WICStateBefore calls k) b =
        (WICStateBefore calls k, [], none)) ∧
    (¬ WICStateBefore calls k = some b.subject_index →
      (∀ img, b.raw_image = RawImage.sitk img →
        WriteImageInformationCallback.on_image_file (WICStateBefore calls k) b =
          (some b.subject_index, wicFills img b.subject_index, none)) ∧
      (b.raw_image.isSitk = false →
        WriteImageInformationCallback.on_image_file (WICStateBefore calls k) b =
          (WICStateBefore calls k, [], some (PyError.valueError "'raw_image' must be of type 'Image'")))) :=
  ⟨wicRun_get calls none k b hk, (wic_step_spec (WICStateBefore calls k) b).1,
    (wic_step_spec (WICStateBefore calls k) b).2⟩

/-- Concrete instantiation of `wic_on_image_file_amended` at the second
call of the counterexample sequence. -/
theorem wic_on_image_file_amended_witness :
    (WICRun none [exBundle, exBadBundle]).get? 1 =
      some ((WriteImageInformationCallback.on_image_file
        (WICStateBefore [exBundle, exBadBundle] 1) exBadBundle).2) ∧
    WriteImageInformationCallback.on_image_file
        (WICStateBefore [exBundle, exBadBundle] 1) exBadBundle =
      (WICStateBefore [exBundle, exBadBundle] 1, [],
        some (PyError.valueError "'raw_image' must be of type 'Image'")) := by
  have h := wic_on_image_file_amended [exBundle, exBadBundle] 1 exBadBundle (by decide)
  exact ⟨h.1, ((h.2.2 (by decide)).2) (by decide)⟩

/-! ## C3: `ComposeCallback` fan-out -/

/-- A child callback, abstracted to its observable behavior on one event:
each hook either returns (`none`) or raises an exception (`some e`). -/
structure ChildCallback (α E : Type) where
  on_start : α → Option E
  on_end : α → Option E
  on_subject_start : α → Option E
  on_subject_end : α → Option E
  on_gt_file : α → Option E
  on_image_file : α → Option E

/-- Select a child's hook by name. -/
def ChildCallback.hookOf {α E : Type} (c : ChildCallback α E) :
    HookName → α → Option E
  | .on_start => c.on_start
  | .on_end => c.on_end
  | .on_subject_start => c.on_subject_start
  | .on_subject_end => c.on_subject_end
  | .on_gt_file => c.on_gt_file
  | .on_image_file => c.on_image_file

/-- The `for c in self.callbacks: c.<hook>(params)` loop, instrumented
with the invocation trace: each invoked child is recorded (position,
parameter bundle passed), and the loop stops at the first child whose
hook raises, propagating that exception. -/
def composeGo {α E : Type} (h : HookName) (params : α) :
    List (ChildCallback α E) → Nat → List (Nat × α) × Option E
  | [], _ => ([], none)
  | c :: rest, i =>
    match c.hookOf h params with
    | some e => ([(i, params)], some e)
    | none =>
      ((i, params) :: (composeGo h params rest (i + 1)).1,
        (composeGo h params rest (i + 1)).2)

/-- `ComposeCallback`: each of the six hook methods runs the loop over
the child list. -/
def ComposeCallback.dispatch {α E : Type} (callbacks : List (ChildCallback α E))
    (h : HookName) (params : α) : List (Nat × α) × Option E :=
  composeGo h params callbacks 0

theorem range_succ_map_shift {α : Type} (params : α) (n i : Nat) :
    (List.range (n + 1)).map (fun j => (i + j, params)) =
      (i, params) :: (List.range n).map (fun j => (i + 1 + j, params)) := by
  have h1 : (fun j => (i + j, params)) ∘ Nat.succ = fun j => (i + 1 + j, params) := by
    funext j
    show (i + Nat.succ j, params) = (i + 1 + j, params)
    have hij : i + Nat.succ j = i + 1 + j := by omega
    rw [hij]
  rw [List.range_succ_eq_map, List.map_cons, List.map_map, h1, Nat.add_zero]

theorem composeGo_all_ok {α E : Type} (h : HookName) (params : α) :
    ∀ (cs : List (ChildCallback α E)) (i : Nat),
      (∀ c ∈ cs, c.hookOf h params = none) →
      composeGo h params cs i =
        ((List.range cs.length).map (fun j => (i + j, params)), none) := by
  intro cs
  induction cs with
  | nil => intro i _; simp [composeGo]
  | cons c rest ih =>
    intro i hall
    have hc : c.hookOf h params = none := hall c (List.mem_cons_self c rest)
    have hrest : ∀ d ∈ rest, d.hookOf h params = none :=
      fun d hd => hall d (List.mem_cons_of_mem c hd)
    simp only [composeGo, hc, ih (i + 1) hrest, List.length_cons]
    rw [range_succ_map_shift]

theorem composeGo_first_err {α E : Type} (h : HookName) (params : α) :
    ∀ (pre : List (ChildCallback α E)) (c : ChildCallback α E)
      (post : List (ChildCallback α E)) (e : E) (i : Nat),
      (∀ d ∈ pre, d.hookOf h params = none) → c.hookOf h params = some e →
      composeGo h params (pre ++ c :: post) i =
        ((List.range (pre.length + 1)).map (fun j => (i + j, params)), some e) := by
  intro pre
  induction pre with
  | nil =>
    intro c post e i _ hc
    simp [composeGo, hc, List.range_succ]
  | cons d pre ih =>
    intro c post e i hpre hc
    have hd : d.hookOf h params = none := hpre d (List.mem_cons_self d pre)
    have hpre' : ∀ x ∈ pre, x.hookOf h params = none :=
      fun x hx => hpre x (List.mem_cons_of_mem d hx)
    simp only [List.cons_append, composeGo, hd, List.append_eq, List.length_cons,
      ih c post e (i + 1) hpre' hc]
    rw [range_succ_map_shift params (pre.length + 1) i,
      range_succ_map_shift params pre.length (i + 1)]

/-- C3: every one of the six hooks of `ComposeCallback` invokes the
same-named hook on each child in list order, passing every child the
identical parameter bundle; when no child raises, every child is invoked
exactly once; when the `i`-th child raises, children after position `i`
are not invoked and the exception propagates unmodified. -/
theorem compose_dispatch_order_failfast {α E : Type}
    (callbacks : List (ChildCallback α E)) (h : HookName) (params : α) :
    ((∀ c ∈ callbacks, c.hookOf h params = none) →
      ComposeCallback.dispatch callbacks h params =
        ((List.range callbacks.length).map (fun j => (j, params)), none)) ∧
    (∀ (pre : List (ChildCallback α E)) (c : ChildCallback α E)
      (post : List (ChildCallback α E)) (e : E),
      callbacks = pre ++ c :: post →
      (∀ d ∈ pre, d.hookOf h params = none) → c.hookOf h params = some e →
      ComposeCallback.dispatch callbacks h params =
        ((List.range (pre.length + 1)).map (fun j => (j, params)), some e)) := by
  constructor
  · intro hall
    rw [ComposeCallback.dispatch, composeGo_all_ok h params callbacks 0 hall]
    simp
  · intro pre c post e hsplit hpre hc
    rw [ComposeCallback.dispatch, hsplit,
      composeGo_first_err h params pre c post e 0 hpre hc]
    simp

/-- A child whose every hook raises the exception `7`. -/
def exChildFail : ChildCallback Nat Nat :=
  ⟨fun _ => some 7, fun _ => some 7, fun _ => some 7,
    fun _ => some 7, fun _ => some 7, fun _ => some 7⟩

/-- A child whose every hook returns normally. -/
def exChildOk : ChildCallback Nat Nat :=
  ⟨fun _ => none, fun _ => none, fun _ => none,
    fun _ => none, fun _ => none, fun _ => none⟩

/-- Concrete instantiation of `compose_dispatch_order_failfast`: with
children `[A, B]` where `A` raises, only `A` is invoked and the exception
propagates. -/
theorem compose_dispatch_witness :
    ComposeCallback.dispatch [exChildFail, exChildOk] HookName.on_start 5 =
      ([(0, 5)], some 7) := by
  have h := (compose_dispatch_order_failfast [exChildFail, exChildOk]
    HookName.on_start 5).2 [] exChildFail [exChildOk] 7 rfl (by simp) rfl
  simpa using h

/-! ## C5 and C10: the common path and relative paths -/

theorem isAncestorOf_refl (p : PyPath) : isAncestorOf p p :=
  ⟨[], List.append_nil p⟩

theorem nil_isAncestorOf (p : PyPath) : isAncestorOf [] p :=
  ⟨p, rfl⟩

theorem isAncestorOf_trans {p q r : PyPath}
    (h1 : isAncestorOf p q) (h2 : isAncestorOf q r) : isAncestorOf p r := by
  obtain ⟨t, ht⟩ := h1
  obtain ⟨s, hs⟩ := h2
  exact ⟨t ++ s, by rw [← List.append_assoc, ht, hs]⟩

theorem commonPrefix2_ancestor_left :
    ∀ a b : PyPath, isAncestorOf (commonPrefix2 a b) a := by
  intro a
  induction a with
  | nil =>
    intro b
    cases b <;> exact nil_isAncestorOf _
  | cons x as ih =>
    intro b
    cases b with
    | nil => exact nil_isAncestorOf _
    | cons y bs =>
      by_cases hxy : x = y
      · obtain ⟨t, ht⟩ := ih bs
        refine ⟨t, ?_⟩
        show (if x = y then x :: commonPrefix2 as bs else []) ++ t = x :: as
        rw [if_pos hxy, List.cons_append, ht]
      · refine ⟨x :: as, ?_⟩
        show (if x = y then x :: commonPrefix2 as bs else []) ++ (x :: as) = x :: as
        rw [if_neg hxy, List.nil_append]

theorem commonPrefix2_ancestor_right :
    ∀ a b : PyPath, isAncestorOf (commonPrefix2 a b) b := by
  intro a
  induction a with
  | nil =>
    intro b
    cases b <;> exact nil_isAncestorOf _
  | cons x as ih =>
    intro b
    cases b with
    | nil => exact nil_isAncestorOf _
    | cons y bs =>
      by_cases hxy : x = y
      · obtain ⟨t, ht⟩ := ih bs
        refine ⟨t, ?_⟩
        show (if x = y then x :: commonPrefix2 as bs else []) ++ t = y :: bs
        rw [if_pos hxy, List.cons_append, ht, hxy]
      · refine ⟨y :: bs, ?_⟩
        show (if x = y then x :: commonPrefix2 as bs else []) ++ (y :: bs) = y :: bs
        rw [if_neg hxy, List.nil_append]

theorem ancestor_commonPrefix2 :
    ∀ q a b : PyPath, isAncestorOf q a → isAncestorOf q b →
      isAncestorOf q (commonPrefix2 a b) := by
  intro q
  induction q with
  | nil => intro a b _ _; exact nil_isAncestorOf _
  | cons x qs ih =>
    intro a b hqa hqb
    obtain ⟨t, ht⟩ := hqa
    obtain ⟨s, hs⟩ := hqb
    have ha : a = x :: (qs ++ t) := by rw [← ht]; rfl
    have hb : b = x :: (qs ++ s) := by rw [← hs]; rfl
    subst ha
    subst hb
    show isAncestorOf (x :: qs)
      (if x = x then x :: commonPrefix2 (qs ++ t) (qs ++ s) else [])
    rw [if_pos rfl]
    obtain ⟨u, hu⟩ := ih (qs ++ t) (qs ++ s) ⟨t, rfl⟩ ⟨s, rfl⟩
    exact ⟨u, by rw [List.cons_append, hu]⟩

theorem foldl_commonPrefix2_ancestor :
    ∀ (ps : List PyPath) (q : PyPath),
      isAncestorOf (ps.foldl commonPrefix2 q) q ∧
        ∀ p ∈ ps, isAncestorOf (ps.foldl commonPrefix2 q) p := by
  intro ps
  induction ps with
  | nil =>
    intro q
    exact ⟨isAncestorOf_refl q, by simp⟩
  | cons r rest ih =>
    intro q
    have h := ih (commonPrefix2 q r)
    refine ⟨isAncestorOf_trans h.1 (commonPrefix2_ancestor_left q r), ?_⟩
    intro p hp
    rcases List.mem_cons.mp hp with rfl | hp'
    · exact isAncestorOf_trans h.1 (commonPrefix2_ancestor_right q p)
    · exact h.2 p hp'

theorem ancestor_foldl_commonPrefix2 :
    ∀ (ps : List PyPath) (q x : PyPath),
      isAncestorOf x q → (∀ p ∈ ps, isAncestorOf x p) →
      isAncestorOf x (ps.foldl commonPrefix2 q) := by
  intro ps
  induction ps with
  | nil => intro q x hq _; exact hq
  | cons r rest ih =>
    intro q x hq hps
    refine ih (commonPrefix2 q r) x
      (ancestor_commonPrefix2 x q r hq (hps r (List.mem_cons_self r rest))) ?_
    intro p hp
    exact hps p (List.mem_cons_of_mem r hp)

/-- `commonpath` on a non-empty list of paths is the greatest lower bound
of all of them under the ancestor (component-prefix) order. -/
theorem commonpath_is_lcp (ps : List PyPath) (hne : ps ≠ []) :
    (∀ x ∈ ps, isAncestorOf (commonpath ps) x) ∧
      ∀ q : PyPath, (∀ x ∈ ps, isAncestorOf q x) → isAncestorOf q (commonpath ps) := by
  cases ps with
  | nil => exact absurd rfl hne
  | cons p rest =>
    constructor
    · intro x hx
      rcases List.mem_cons.mp hx with rfl | hx'
      · exact (foldl_commonPrefix2_ancestor rest x).1
      · exact (foldl_commonPrefix2_ancestor rest p).2 x hx'
    · intro q hq
      exact ancestor_foldl_commonPrefix2 rest p q
        (hq p (List.mem_cons_self p rest))
        (fun x hx => hq x (List.mem_cons_of_mem p hx))

/-- A subject owning exactly the two files of the spec's example. -/
def exSubjectAB : SubjectFile :=
  ⟨[["a", "b", "c.txt"], ["a", "b", "d.txt"]], none⟩

/-- The bundle for `on_start` and the first image-file event of the
two-file example. -/
def exPairBundle : Bundle :=
  { exBundle with
    subject_files := [exSubjectAB]
    has_gt := false
    sequence_names := ["t1", "t2"]
    file := ["a", "b", "c.txt"]
    subject_index := 0
    sequence_index := 0 }

/-- The bundle for the second image-file event of the two-file example. -/
def exPairBundleD : Bundle :=
  { exPairBundle with file := ["a", "b", "d.txt"], sequence_index := 1 }

/-- C5: `WriteFilesCallback._get_common_path` returns the longest common
path ancestor of all sequence and ground-truth files of all subjects
(for any non-empty collection whose subjects each own at least one
file); in particular, for the files `/a/b/c.txt` and `/a/b/d.txt` the
root is `/a/b` and `on_image_file` fills the relative paths `c.txt` and
`d.txt`. -/
theorem wfc_get_common_path_lcp :
    (∀ (sfs : List SubjectFile), sfs ≠ [] →
      (∀ sf ∈ sfs, subjectAllFiles sf ≠ []) →
      (∀ sf ∈ sfs, ∀ p ∈ subjectAllFiles sf,
        isAncestorOf (WriteFilesCallback.getCommonPath sfs) p) ∧
      (∀ q : PyPath, (∀ sf ∈ sfs, ∀ p ∈ subjectAllFiles sf, isAncestorOf q p) →
        isAncestorOf q (WriteFilesCallback.getCommonPath sfs))) ∧
    (WriteFilesCallback.getCommonPath [exSubjectAB] = ["a", "b"] ∧
      pathString ["a", "b"] = "/a/b" ∧
      (WriteFilesCallback.on_start exPairBundle).1 = some ["a", "b"] ∧
      WriteFilesCallback.on_image_file (WriteFilesCallback.on_start exPairBundle).1
          exPairBundle =
        ([WriterOp.fill WriteFilesCallback.SEQ_FILES (Value.vstr "c.txt")
          (IndexExpression.cell 0 0)], none) ∧
      WriteFilesCallback.on_image_file (WriteFilesCallback.on_start exPairBundle).1
          exPairBundleD =
        ([WriterOp.fill WriteFilesCallback.SEQ_FILES (Value.vstr "d.txt")
          (IndexExpression.cell 0 1)], none)) := by
  constructor
  · intro sfs hne hfiles
    have hmapne : sfs.map (fun sf => commonpath (subjectAllFiles sf)) ≠ [] := by
      intro hmap
      exact hne (List.map_eq_nil_iff.mp hmap)
    have houter := commonpath_is_lcp
      (sfs.map (fun sf => commonpath (subjectAllFiles sf))) hmapne
    constructor
    · intro sf hsf p hp
      have h1 : isAncestorOf (WriteFilesCallback.getCommonPath sfs)
          (commonpath (subjectAllFiles sf)) :=
        houter.1 _ (List.mem_map_of_mem (fun sf => commonpath (subjectAllFiles sf)) hsf)
      have h2 : isAncestorOf (commonpath (subjectAllFiles sf)) p :=
        (commonpath_is_lcp (subjectAllFiles sf) (hfiles sf hsf)).1 p hp
      exact isAncestorOf_trans h1 h2
    · intro q hq
      refine houter.2 q ?_
      intro x hx
      obtain ⟨sf, hsf, rfl⟩ := List.mem_map.mp hx
      exact (commonpath_is_lcp (subjectAllFiles sf) (hfiles sf hsf)).2 q (hq sf hsf)
  · refine ⟨by decide, by decide, by decide, by decide, by decide⟩

/-- Concrete instantiation of the general part of
`wfc_get_common_path_lcp` on the two-file example. -/
theorem wfc_get_common_path_witness :
    (([exSubjectAB] : List SubjectFile) ≠ [] ∧
      (∀ sf ∈ [exSubjectAB], subjectAllFiles sf ≠ [])) ∧
    isAncestorOf (WriteFilesCallback.getCommonPath [exSubjectAB])
      ["a", "b", "c.txt"] := by
  refine ⟨⟨by decide, by decide⟩, ?_⟩
  exact (wfc_get_common_path_lcp.1 [exSubjectAB] (by decide) (by decide)).1
    exSubjectAB (by decide) ["a", "b", "c.txt"] (by decide)

theorem commonPrefix2_self : ∀ l : PyPath, commonPrefix2 l l = l := by
  intro l
  induction l with
  | nil => rfl
  | cons x xs ih =>
    show (if x = x then x :: commonPrefix2 xs xs else []) = x :: xs
    rw [if_pos rfl, ih]

theorem relpath_self (p : PyPath) : relpath p p = "." := by
  simp [relpath, commonPrefix2_self, List.drop_length]

/-- The bundle for the single-subject single-file scenario. -/
def singleFileBundle (f : PyPath) : Bundle :=
  { exBundle with
    subject_files := [⟨[f], none⟩]
    has_gt := false
    subject_index := 0
    sequence_index := 0
    file := f
    sequence_names := ["img"] }

/-- C10: for one subject with exactly one sequence file and no
ground-truth files, `on_start` computes the file root as that file's
full path itself, and the subsequent `on_image_file` fills the relative
path `.` into `meta/sequence_files` at cell `(0, 0)`. -/
theorem wfc_single_file_root (f : PyPath) :
    WriteFilesCallback.getCommonPath [⟨[f], none⟩] = f ∧
    (WriteFilesCallback.on_start (singleFileBundle f)).1 = some f ∧
    WriteFilesCallback.on_image_file
        (WriteFilesCallback.on_start (singleFileBundle f)).1 (singleFileBundle f) =
      ([WriterOp.fill WriteFilesCallback.SEQ_FILES (Value.vstr ".")
        (IndexExpression.cell 0 0)], none) := by
  have hroot : WriteFilesCallback.getCommonPath [⟨[f], none⟩] = f := rfl
  refine ⟨hroot, rfl, ?_⟩
  show ([WriterOp.fill WriteFilesCallback.SEQ_FILES
      (Value.vstr (relpath f (WriteFilesCallback.getCommonPath [⟨[f], none⟩])))
      (IndexExpression.cell 0 0)], none) =
    ([WriterOp.fill WriteFilesCallback.SEQ_FILES (Value.vstr ".")
      (IndexExpression.cell 0 0)], none)
  rw [hroot, relpath_self]

/-! ## C7: the reserve-before-fill invariant under the driver contract -/

/-- Dispatch one event to `WriteSubjectCallback` (hooks it does not
implement fall through to the base class no-op). -/
def WriteSubjectCallback.handle (h : HookName) (b : Bundle) : List WriterOp :=
  match h with
  | .on_start => WriteSubjectCallback.on_start b
  | .on_subject_start => WriteSubjectCallback.on_subject_start b
  | _ => []

/-- The writer calls `WriteSubjectCallback` makes at each event of a
driver run. -/
def WriteSubjectCallback.runPerEvent (events : List (HookName × Bundle)) :
    List (List WriterOp) :=
  events.map (fun e => WriteSubjectCallback.handle e.1 e.2)

/-- Run a stateful callback over a driver's event list, collecting the
writer calls of each event.  A raised exception propagates to the driver
and aborts the run. -/
def runStateful {σ : Type}
    (handle : σ → HookName → Bundle → σ × List WriterOp × Option PyError) :
    σ → List (HookName × Bundle) → List (List WriterOp)
  | _, [] => []
  | st, e :: rest =>
    match handle st e.1 e.2 with
    | (_, ops, some _) => [ops]
    | (st', ops, none) => ops :: runStateful handle st' rest

/-- Dispatch one event to `WriteImageInformationCallback`. -/
def WriteImageInformationCallback.handle (prev : Option Nat) (h : HookName)
    (b : Bundle) : Option Nat × List WriterOp × Option PyError :=
  match h with
  | .on_start => (prev, WriteImageInformationCallback.on_start b, none)
  | .on_image_file => WriteImageInformationCallback.on_image_file prev b
  | _ => (prev, [], none)

/-- The writer calls `WriteImageInformationCallback` makes at each event
of a driver run. -/
def WriteImageInformationCallback.runPerEvent (prev : Option Nat)
    (events : List (HookName × Bundle)) : List (List WriterOp) :=
  runStateful WriteImageInformationCallback.handle prev events

/-- Dispatch one event to `WriteFilesCallback`. -/
def WriteFilesCallback.handle (file_root : Option PyPath) (h : HookName)
    (b : Bundle) : Option PyPath × List WriterOp × Option PyError :=
  match h with
  | .on_start =>
    ((WriteFilesCallback.on_start b).1, (WriteFilesCallback.on_start b).2, none)
  | .on_image_file => (file_root, WriteFilesCallback.on_image_file file_root b)
  | .on_gt_file => (file_root, WriteFilesCallback.on_gt_file file_root b)
  | _ => (file_root, [], none)

/-- The writer calls `WriteFilesCallback` makes at each event of a driver
run. -/
def WriteFilesCallback.runPerEvent (file_root : Option PyPath)
    (events : List (HookName × Bundle)) : List (List WriterOp) :=
  runStateful WriteFilesCallback.handle file_root events

/-- The driver's ordering contract (spec §5): `on_start` fires exactly
once, first; every event's `subject_index` is below the subject count of
the start bundle, every `sequence_index` below its sequence-name count
and every `gt_index` below its gt-name count; gt-file events occur only
when the collection has ground truth. -/
def DriverContract (events : List (HookName × Bundle)) : Bool :=
  match events with
  | [] => false
  | (h0, b0) :: rest =>
    (h0 == HookName.on_start &&
      rest.all (fun e => !(e.1 == HookName.on_start))) &&
    (((h0, b0) :: rest).all (fun e =>
        decide (e.2.subject_index < b0.subject_files.length) &&
        decide (e.2.sequence_index < b0.sequence_names.length) &&
        decide (e.2.gt_index < b0.gt_names.length)) &&
      (b0.has_gt || rest.all (fun e => !(e.1 == HookName.on_gt_file))))

/-- The per-key storage discipline of a callback's run, with the writer
calls grouped per event: reserves happen only at the first event
(`on_start`), which performs no fill, so every reserve precedes every
fill; no key is reserved twice; and every fill targets a key reserved at
`on_start`, at an index expression within the reserved bounds. -/
def ReserveFillInv (perEvent : List (List WriterOp)) : Prop :=
  (∀ ops ∈ perEvent.tail, ∀ op ∈ ops, op.isReserve = false) ∧
  (∀ op ∈ perEvent.headD [], op.isFill = false) ∧
  (∀ k : String,
    ((perEvent.flatten).filter (fun op => op.isReserve && op.key == k)).length ≤ 1) ∧
  (∀ k v ie, WriterOp.fill k v ie ∈ perEvent.flatten →
    ∃ shape dt, WriterOp.reserve k shape dt ∈ perEvent.headD [] ∧
      ie.inBounds shape = true)

theorem contract_destruct (events : List (HookName × Bundle))
    (hc : DriverContract events = true) :
    ∃ b0 rest, events = (HookName.on_start, b0) :: rest ∧
      (∀ e ∈ rest, e.1 ≠ HookName.on_start) ∧
      (∀ e ∈ events, e.2.subject_index < b0.subject_files.length ∧
        e.2.sequence_index < b0.sequence_names.length ∧
        e.2.gt_index < b0.gt_names.length) ∧
      (b0.has_gt = false → ∀ e ∈ rest, e.1 ≠ HookName.on_gt_file) := by
  match events with
  | [] => simp [DriverContract] at hc
  | (h0, b0) :: rest =>
    simp only [DriverContract, Bool.and_eq_true, beq_iff_eq, List.all_eq_true,
      Bool.not_eq_true', beq_eq_false_iff_ne, decide_eq_true_eq,
      Bool.or_eq_true] at hc
    obtain ⟨⟨hh0, hrest⟩, hbounds, hgt⟩ := hc
    subst hh0
    refine ⟨b0, rest, rfl, hrest, ?_, ?_⟩
    · intro e he
      obtain ⟨⟨h1, h2⟩, h3⟩ := hbounds e he
      exact ⟨h1, h2, h3⟩
    intro hgtf e he
    rcases hgt with hgt1 | hgt2
    · rw [hgtf] at hgt1
      cases hgt1
    · exact hgt2 e he

theorem single_inBounds {i n : Nat} (h : i < n) (c : List Nat) :
    (IndexExpression.single i).inBounds (n :: c) = true := by
  simp [IndexExpression.inBounds, IndexExpression.single, h]

theorem cell_inBounds {i j n m : Nat} (hi : i < n) (hj : j < m) :
    (IndexExpression.cell i j).inBounds [n, m] = true := by
  simp [IndexExpression.inBounds, IndexExpression.cell, hi, hj]

theorem filter_no_reserve_eq_nil {l : List WriterOp}
    (h : ∀ op ∈ l, op.isReserve = false) :
    ∀ p : WriterOp → Bool,
      (∀ op, p op = true → op.isReserve = true) → l.filter p = [] := by
  intro p hp
  rw [List.filter_eq_nil_iff]
  intro op hop hpop
  have h1 := h op hop
  rw [hp op hpop] at h1
  cases h1

theorem filter_reserve_key_length_le_one :
    ∀ l : List WriterOp,
      ((l.filter (fun op => op.isReserve)).map WriterOp.key).Nodup →
      ∀ k : String,
        (l.filter (fun op => op.isReserve && op.key == k)).length ≤ 1 := by
  intro l
  induction l with
  | nil => intro _ k; simp
  | cons a l ih =>
    intro hnd k
    by_cases ha : a.isReserve = true
    · rw [List.filter_cons_of_pos (by simp [ha])] at hnd
      rw [List.map_cons, List.nodup_cons] at hnd
      by_cases hak : (a.key == k) = true
      · rw [List.filter_cons_of_pos (by simp [ha, hak])]
        have hnil : l.filter (fun op => op.isReserve && op.key == k) = [] := by
          rw [List.filter_eq_nil_iff]
          intro op hop hpop
          simp only [Bool.and_eq_true, beq_iff_eq] at hpop
          apply hnd.1
          have : op ∈ l.filter (fun op => op.isReserve) :=
            List.mem_filter.mpr ⟨hop, hpop.1⟩
          have hkeys := List.mem_map_of_mem WriterOp.key this
          rw [hpop.2, ← (beq_iff_eq.mp hak)] at hkeys
          exact hkeys
        rw [hnil]
        simp
      · rw [List.filter_cons_of_neg (by simp [hak])]
        exact ih hnd.2 k
    · have ha' : a.isReserve = false := by
        cases hb : a.isReserve
        · rfl
        · exact absurd hb ha
      rw [List.filter_cons_of_neg (by simp [ha'])] at hnd
      rw [List.filter_cons_of_neg (by simp [ha'])]
      exact ih hnd k

theorem wsc_reserve_fill_inv (events : List (HookName × Bundle))
    (hc : DriverContract events = true) :
    ReserveFillInv (WriteSubjectCallback.runPerEvent events) := by
  obtain ⟨b0, rest, rfl, hrest, hbounds, _⟩ := contract_destruct events hc
  have hrun : WriteSubjectCallback.runPerEvent ((HookName.on_start, b0) :: rest) =
      WriteSubjectCallback.on_start b0 ::
        rest.map (fun e => WriteSubjectCallback.handle e.1 e.2) := rfl
  have htail : ∀ ops ∈ rest.map (fun e => WriteSubjectCallback.handle e.1 e.2),
      ∀ op ∈ ops, op.isReserve = false ∧
        ∀ k v ie, op = WriterOp.fill k v ie →
          k = WriteSubjectCallback.SUBJECT ∧
          ∃ i, i < b0.subject_files.length ∧ ie = IndexExpression.single i := by
    intro ops hops op hop
    obtain ⟨e, he, rfl⟩ := List.mem_map.mp hops
    have hb := (hbounds e (List.mem_cons_of_mem _ he)).1
    have hns := hrest e he
    rcases e with ⟨h, b⟩
    cases h with
    | on_start => exact absurd rfl hns
    | on_subject_start =>
      simp only [WriteSubjectCallback.handle, WriteSubjectCallback.on_subject_start,
        List.mem_singleton] at hop
      subst hop
      refine ⟨rfl, ?_⟩
      intro k v ie heq
      injection heq with hk hv hie
      exact ⟨hk.symm, b.subject_index, hb, hie.symm⟩
    | on_end => simp [WriteSubjectCallback.handle] at hop
    | on_subject_end => simp [WriteSubjectCallback.handle] at hop
    | on_gt_file => simp [WriteSubjectCallback.handle] at hop
    | on_image_file => simp [WriteSubjectCallback.handle] at hop
  have hflat : ∀ op ∈ (rest.map (fun e => WriteSubjectCallback.handle e.1 e.2)).flatten,
      op.isReserve = false := by
    intro op hop
    obtain ⟨ops, hops, hop2⟩ := List.mem_flatten.mp hop
    exact (htail ops hops op hop2).1
  rw [hrun]
  refine ⟨?_, ?_, ?_, ?_⟩
  · intro ops hops op hop
    rw [List.tail_cons] at hops
    exact (htail ops hops op hop).1
  · intro op hop
    simp only [List.headD_cons, WriteSubjectCallback.on_start,
      List.mem_singleton] at hop
    subst hop
    rfl
  · intro k
    rw [List.flatten_cons, List.filter_append,
      filter_no_reserve_eq_nil hflat _
        (fun op hpop => by
          simp only [Bool.and_eq_true] at hpop
          exact hpop.1),
      List.append_nil]
    calc ((WriteSubjectCallback.on_start b0).filter
          (fun op => op.isReserve && op.key == k)).length
        ≤ (WriteSubjectCallback.on_start b0).length := List.length_filter_le _ _
      _ = 1 := rfl
  · intro k v ie hmem
    rw [List.flatten_cons] at hmem
    rcases List.mem_append.mp hmem with hh | ht
    · simp [WriteSubjectCallback.on_start] at hh
    · obtain ⟨ops, hops, hop2⟩ := List.mem_flatten.mp ht
      obtain ⟨hk, i, hi, hie⟩ := (htail ops hops _ hop2).2 k v ie rfl
      subst hk
      subst hie
      exact ⟨[b0.subject_files.length], Dtype.str,
        List.mem_singleton.mpr rfl, single_inBounds hi []⟩

theorem wic_handle_ops (N : Nat) (st : Option Nat) (h : HookName) (b : Bundle)
    (hns : h ≠ HookName.on_start) (hb : b.subject_index < N) :
    ∀ op ∈ (WriteImageInformationCallback.handle st h b).2.1,
      op.isReserve = false ∧
      ∀ k v ie, op = WriterOp.fill k v ie →
        (k = WriteImageInformationCallback.SHAPE ∨
          k = WriteImageInformationCallback.DIRECTION ∨
          k = WriteImageInformationCallback.SPACING) ∧
        ∃ i, i < N ∧ ie = IndexExpression.single i := by
  intro op hop
  cases h with
  | on_start => exact absurd rfl hns
  | on_image_file =>
    simp only [WriteImageInformationCallback.handle] at hop
    by_cases hskip : st = some b.subject_index
    · simp [WriteImageInformationCallback.on_image_file, hskip] at hop
    · cases hraw : b.raw_image with
      | notImage t =>
        simp [WriteImageInformationCallback.on_image_file, hskip, hraw] at hop
      | sitk img =>
        simp [WriteImageInformationCallback.on_image_file, hskip, hraw] at hop
        rcases hop with rfl | rfl | rfl
        · refine ⟨rfl, ?_⟩
          intro k v ie heq
          injection heq with hk hv hie
          exact ⟨Or.inl hk.symm, b.subject_index, hb, hie.symm⟩
        · refine ⟨rfl, ?_⟩
          intro k v ie heq
          injection heq with hk hv hie
          exact ⟨Or.inr (Or.inl hk.symm), b.subject_index, hb, hie.symm⟩
        · refine ⟨rfl, ?_⟩
          intro k v ie heq
          injection heq with hk hv hie
          exact ⟨Or.inr (Or.inr hk.symm), b.subject_index, hb, hie.symm⟩
  | on_end => simp [WriteImageInformationCallback.handle] at hop
  | on_subject_start => simp [WriteImageInformationCallback.handle] at hop
  | on_subject_end => simp [WriteImageInformationCallback.handle] at hop
  | on_gt_file => simp [WriteImageInformationCallback.handle] at hop

theorem wic_run_tail (N : Nat) :
    ∀ (rest : List (HookName × Bundle)) (st : Option Nat),
      (∀ e ∈ rest, e.1 ≠ HookName.on_start) →
      (∀ e ∈ rest, e.2.subject_index < N) →
      ∀ ops ∈ runStateful WriteImageInformationCallback.handle st rest,
        ∀ op ∈ ops, op.isReserve = false ∧
          ∀ k v ie, op = WriterOp.fill k v ie →
            (k = WriteImageInformationCallback.SHAPE ∨
              k = WriteImageInformationCallback.DIRECTION ∨
              k = WriteImageInformationCallback.SPACING) ∧
            ∃ i, i < N ∧ ie = IndexExpression.single i := by
  intro rest
  induction rest with
  | nil =>
    intro st _ _ ops hops
    simp [runStateful] at hops
  | cons e rest ih =>
    intro st hns hbd ops hops
    have hstep := wic_handle_ops N st e.1 e.2
      (hns e (List.mem_cons_self e rest)) (hbd e (List.mem_cons_self e rest))
    rcases hh : WriteImageInformationCallback.handle st e.1 e.2 with ⟨st', ops', err⟩
    rw [hh] at hstep
    simp only [runStateful, hh] at hops
    cases err with
    | some pe =>
      simp only [List.mem_singleton] at hops
      subst hops
      exact hstep
    | none =>
      rcases List.mem_cons.mp hops with rfl | hops'
      · exact hstep
      · exact ih st'
          (fun x hx => hns x (List.mem_cons_of_mem e hx))
          (fun x hx => hbd x (List.mem_cons_of_mem e hx)) ops hops'

theorem wic_reserve_fill_inv (events : List (HookName × Bundle))
    (hc : DriverContract events = true) :
    ReserveFillInv (WriteImageInformationCallback.runPerEvent none events) := by
  obtain ⟨b0, rest, rfl, hrest, hbounds, _⟩ := contract_destruct events hc
  have hrun : WriteImageInformationCallback.runPerEvent none
      ((HookName.on_start, b0) :: rest) =
      WriteImageInformationCallback.on_start b0 ::
        runStateful WriteImageInformationCallback.handle none rest := rfl
  have htail := wic_run_tail b0.subject_files.length rest none hrest
    (fun e he => (hbounds e (List.mem_cons_of_mem _ he)).1)
  have hflat : ∀ op ∈ (runStateful WriteImageInformationCallback.handle
      none rest).flatten, op.isReserve = false := by
    intro op hop
    obtain ⟨ops, hops, hop2⟩ := List.mem_flatten.mp hop
    exact (htail ops hops op hop2).1
  rw [hrun]
  refine ⟨?_, ?_, ?_, ?_⟩
  · intro ops hops op hop
    rw [List.tail_cons] at hops
    exact (htail ops hops op hop).1
  · intro op hop
    simp only [List.headD_cons, WriteImageInformationCallback.on_start,
      List.mem_cons, List.mem_singleton, List.not_mem_nil, or_false] at hop
    rcases hop with rfl | rfl | rfl <;> rfl
  · intro k
    rw [List.flatten_cons, List.filter_append,
      filter_no_reserve_eq_nil hflat _
        (fun op hpop => by
          simp only [Bool.and_eq_true] at hpop
          exact hpop.1),
      List.append_nil]
    apply filter_reserve_key_length_le_one
    have hkeys : (((WriteImageInformationCallback.on_start b0).filter
        (fun op => op.isReserve)).map WriterOp.key) =
        ["meta/shapes", "meta/directions", "meta/spacing"] := rfl
    rw [hkeys]
    decide
  · intro k v ie hmem
    rw [List.flatten_cons] at hmem
    rcases List.mem_append.mp hmem with hh | ht
    · simp [WriteImageInformationCallback.on_start] at hh
    · obtain ⟨ops, hops, hop2⟩ := List.mem_flatten.mp ht
      obtain ⟨hk, i, hi, hie⟩ := (htail ops hops _ hop2).2 k v ie rfl
      subst hie
      rcases hk with rfl | rfl | rfl
      · exact ⟨[b0.subject_files.length, 3], Dtype.uint8,
          List.mem_cons_self _ _, single_inBounds hi [3]⟩
      · exact ⟨[b0.subject_files.length, 9], Dtype.float,
          List.mem_cons_of_mem _ (List.mem_cons_self _ _), single_inBounds hi [9]⟩
      · exact ⟨[b0.subject_files.length, 3], Dtype.float,
          List.mem_cons_of_mem _ (List.mem_cons_of_mem _ (List.mem_cons_self _ _)),
          single_inBounds hi [3]⟩

theorem wfc_handle_ops (N S G : Nat) (hasgt : Bool) (st : Option PyPath)
    (h : HookName) (b : Bundle) (hns : h ≠ HookName.on_start)
    (hb : b.subject_index < N ∧ b.sequence_index < S ∧ b.gt_index < G)
    (hgt : hasgt = false → h ≠ HookName.on_gt_file) :
    ∀ op ∈ (WriteFilesCallback.handle st h b).2.1,
      op.isReserve = false ∧
      ∀ k v ie, op = WriterOp.fill k v ie →
        ((k = WriteFilesCallback.SEQ_FILES ∧
          ∃ i j, i < N ∧ j < S ∧ ie = IndexExpression.cell i j) ∨
          (k = WriteFilesCallback.GT_FILES ∧ hasgt = true ∧
            ∃ i j, i < N ∧ j < G ∧ ie = IndexExpression.cell i j)) := by
  intro op hop
  cases h with
  | on_start => exact absurd rfl hns
  | on_image_file =>
    cases st with
    | none => simp [WriteFilesCallback.handle, WriteFilesCallback.on_image_file] at hop
    | some root =>
      simp [WriteFilesCallback.handle, WriteFilesCallback.on_image_file] at hop
      subst hop
      refine ⟨rfl, ?_⟩
      intro k v ie heq
      injection heq with hk hv hie
      exact Or.inl ⟨hk.symm, b.subject_index, b.sequence_index,
        hb.1, hb.2.1, hie.symm⟩
  | on_gt_file =>
    have hg : hasgt = true := by
      cases hgcase : hasgt
      · exact absurd rfl (hgt hgcase)
      · rfl
    cases st with
    | none => simp [WriteFilesCallback.handle, WriteFilesCallback.on_gt_file] at hop
    | some root =>
      simp [WriteFilesCallback.handle, WriteFilesCallback.on_gt_file] at hop
      subst hop
      refine ⟨rfl, ?_⟩
      intro k v ie heq
      injection heq with hk hv hie
      exact Or.inr ⟨hk.symm, hg, b.subject_index, b.gt_index,
        hb.1, hb.2.2, hie.symm⟩
  | on_end => simp [WriteFilesCallback.handle] at hop
  | on_subject_start => simp [WriteFilesCallback.handle] at hop
  | on_subject_end => simp [WriteFilesCallback.handle] at hop

theorem wfc_run_tail (N S G : Nat) (hasgt : Bool) :
    ∀ (rest : List (HookName × Bundle)) (st : Option PyPath),
      (∀ e ∈ rest, e.1 ≠ HookName.on_start) →
      (∀ e ∈ rest, e.2.subject_index < N ∧ e.2.sequence_index < S ∧
        e.2.gt_index < G) →
      (hasgt = false → ∀ e ∈ rest, e.1 ≠ HookName.on_gt_file) →
      ∀ ops ∈ runStateful WriteFilesCallback.handle st rest,
        ∀ op ∈ ops, op.isReserve = false ∧
          ∀ k v ie, op = WriterOp.fill k v ie →
            ((k = WriteFilesCallback.SEQ_FILES ∧
              ∃ i j, i < N ∧ j < S ∧ ie = IndexExpression.cell i j) ∨
              (k = WriteFilesCallback.GT_FILES ∧ hasgt = true ∧
                ∃ i j, i < N ∧ j < G ∧ ie = IndexExpression.cell i j)) := by
  intro rest
  induction rest with
  | nil =>
    intro st _ _ _ ops hops
    simp [runStateful] at hops
  | cons e rest ih =>
    intro st hns hbd hgt ops hops
    have hstep := wfc_handle_ops N S G hasgt st e.1 e.2
      (hns e (List.mem_cons_self e rest)) (hbd e (List.mem_cons_self e rest))
      (fun hf => hgt hf e (List.mem_cons_self e rest))
    rcases hh : WriteFilesCallback.handle st e.1 e.2 with ⟨st', ops', err⟩
    rw [hh] at hstep
    simp only [runStateful, hh] at hops
    cases err with
    | some pe =>
      simp only [List.mem_singleton] at hops
      subst hops
      exact hstep
    | none =>
      rcases List.mem_cons.mp hops with rfl | hops'
      · exact hstep
      · exact ih st'
          (fun x hx => hns x (List.mem_cons_of_mem e hx))
          (fun x hx => hbd x (List.mem_cons_of_mem e hx))
          (fun hf x hx => hgt hf x (List.mem_cons_of_mem e hx)) ops hops'

theorem wfc_reserve_fill_inv (events : List (HookName × Bundle))
    (hc : DriverContract events = true) :
    ReserveFillInv (WriteFilesCallback.runPerEvent none events) := by
  obtain ⟨b0, rest, rfl, hrest, hbounds, hgt⟩ := contract_destruct events hc
  have hrun : WriteFilesCallback.runPerEvent none ((HookName.on_start, b0) :: rest) =
      (WriteFilesCallback.on_start b0).2 ::
        runStateful WriteFilesCallback.handle (WriteFilesCallback.on_start b0).1 rest := rfl
  have htail := wfc_run_tail b0.subject_files.length b0.sequence_names.length
    b0.gt_names.length b0.has_gt rest (WriteFilesCallback.on_start b0).1 hrest
    (fun e he => hbounds e (List.mem_cons_of_mem _ he)) hgt
  have hflat : ∀ op ∈ (runStateful WriteFilesCallback.handle
      (WriteFilesCallback.on_start b0).1 rest).flatten, op.isReserve = false := by
    intro op hop
    obtain ⟨ops, hops, hop2⟩ := List.mem_flatten.mp hop
    exact (htail ops hops op hop2).1
  rw [hrun]
  refine ⟨?_, ?_, ?_, ?_⟩
  · intro ops hops op hop
    rw [List.tail_cons] at hops
    exact (htail ops hops op hop).1
  · intro op hop
    rw [List.headD_cons] at hop
    cases hgtc : b0.has_gt
    · have hops : (WriteFilesCallback.on_start b0).2 =
          [WriterOp.write WriteFilesCallback.FILE_ROOT
            (Value.vstr (pathString (WriteFilesCallback.getCommonPath b0.subject_files)))
            (some Dtype.str),
            WriterOp.reserve WriteFilesCallback.SEQ_FILES
              [b0.subject_files.length, b0.sequence_names.length] Dtype.str] := by
        simp [WriteFilesCallback.on_start, hgtc]
      rw [hops] at hop
      simp only [List.mem_cons, List.not_mem_nil, or_false] at hop
      rcases hop with rfl | rfl
      · rfl
      · rfl
    · have hops : (WriteFilesCallback.on_start b0).2 =
          [WriterOp.write WriteFilesCallback.FILE_ROOT
            (Value.vstr (pathString (WriteFilesCallback.getCommonPath b0.subject_files)))
            (some Dtype.str),
            WriterOp.reserve WriteFilesCallback.SEQ_FILES
              [b0.subject_files.length, b0.sequence_names.length] Dtype.str,
            WriterOp.reserve WriteFilesCallback.GT_FILES
              [b0.subject_files.length, b0.gt_names.length] Dtype.str] := by
        simp [WriteFilesCallback.on_start, hgtc]
      rw [hops] at hop
      simp only [List.mem_cons, List.not_mem_nil, or_false] at hop
      rcases hop with rfl | rfl | rfl
      · rfl
      · rfl
      · rfl
  · intro k
    rw [List.flatten_cons, List.filter_append,
      filter_no_reserve_eq_nil hflat _
        (fun op hpop => by
          simp only [Bool.and_eq_true] at hpop
          exact hpop.1),
      List.append_nil]
    apply filter_reserve_key_length_le_one
    cases hgtc : b0.has_gt
    · have hops : (WriteFilesCallback.on_start b0).2 =
          [WriterOp.write WriteFilesCallback.FILE_ROOT
            (Value.vstr (pathString (WriteFilesCallback.getCommonPath b0.subject_files)))
            (some Dtype.str),
            WriterOp.reserve WriteFilesCallback.SEQ_FILES
              [b0.subject_files.length, b0.sequence_names.length] Dtype.str] := by
        simp [WriteFilesCallback.on_start, hgtc]
      rw [hops]
      exact (by decide : (["meta/sequence_files"] : List String).Nodup)
    · have hops : (WriteFilesCallback.on_start b0).2 =
          [WriterOp.write WriteFilesCallback.FILE_ROOT
            (Value.vstr (pathString (WriteFilesCallback.getCommonPath b0.subject_files)))
            (some Dtype.str),
            WriterOp.reserve WriteFilesCallback.SEQ_FILES
              [b0.subject_files.length, b0.sequence_names.length] Dtype.str,
            WriterOp.reserve WriteFilesCallback.GT_FILES
              [b0.subject_files.length, b0.gt_names.length] Dtype.str] := by
        simp [WriteFilesCallback.on_start, hgtc]
      rw [hops]
      exact (by decide :
        (["meta/sequence_files", "meta/gt_files"] : List String).Nodup)
  · intro k v ie hmem
    rw [List.flatten_cons] at hmem
    rcases List.mem_append.mp hmem with hh | ht
    · cases hgtc : b0.has_gt
      · have hops : (WriteFilesCallback.on_start b0).2 =
            [WriterOp.write WriteFilesCallback.FILE_ROOT
              (Value.vstr (pathString (WriteFilesCallback.getCommonPath b0.subject_files)))
              (some Dtype.str),
              WriterOp.reserve WriteFilesCallback.SEQ_FILES
                [b0.subject_files.length, b0.sequence_names.length] Dtype.str] := by
          simp [WriteFilesCallback.on_start, hgtc]
        rw [hops] at hh
        simp at hh
      · have hops : (WriteFilesCallback.on_start b0).2 =
            [WriterOp.write WriteFilesCallback.FILE_ROOT
              (Value.vstr (pathString (WriteFilesCallback.getCommonPath b0.subject_files)))
              (some Dtype.str),
              WriterOp.reserve WriteFilesCallback.SEQ_FILES
                [b0.subject_files.length, b0.sequence_names.length] Dtype.str,
              WriterOp.reserve WriteFilesCallback.GT_FILES
                [b0.subject_files.length, b0.gt_names.length] Dtype.str] := by
          simp [WriteFilesCallback.on_start, hgtc]
        rw [hops] at hh
        simp at hh
    · obtain ⟨ops, hops, hop2⟩ := List.mem_flatten.mp ht
      rcases (htail ops hops _ hop2).2 k v ie rfl with
        ⟨hk, i, j, hi, hj, hie⟩ | ⟨hk, hgt1, i, j, hi, hj, hie⟩
      · subst hk
        subst hie
        refine ⟨[b0.subject_files.length, b0.sequence_names.length], Dtype.str,
          ?_, cell_inBounds hi hj⟩
        cases hgtc : b0.has_gt
        · have hops2 : (WriteFilesCallback.on_start b0).2 =
              [WriterOp.write WriteFilesCallback.FILE_ROOT
                (Value.vstr (pathString (WriteFilesCallback.getCommonPath b0.subject_files)))
                (some Dtype.str),
                WriterOp.reserve WriteFilesCallback.SEQ_FILES
                  [b0.subject_files.length, b0.sequence_names.length] Dtype.str] := by
            simp [WriteFilesCallback.on_start, hgtc]
          rw [hops2]
          exact List.mem_cons_of_mem _ (List.mem_cons_self _ _)
        · have hops2 : (WriteFilesCallback.on_start b0).2 =
              [WriterOp.write WriteFilesCallback.FILE_ROOT
                (Value.vstr (pathString (WriteFilesCallback.getCommonPath b0.subject_files)))
                (some Dtype.str),
                WriterOp.reserve WriteFilesCallback.SEQ_FILES
                  [b0.subject_files.length, b0.sequence_names.length] Dtype.str,
                WriterOp.reserve WriteFilesCallback.GT_FILES
                  [b0.subject_files.length, b0.gt_names.length] Dtype.str] := by
            simp [WriteFilesCallback.on_start, hgtc]
          rw [hops2]
          exact List.mem_cons_of_mem _ (List.mem_cons_self _ _)
      · subst hk
        subst hie
        refine ⟨[b0.subject_files.length, b0.gt_names.length], Dtype.str,
          ?_, cell_inBounds hi hj⟩
        have hops2 : (WriteFilesCallback.on_start b0).2 =
            [WriterOp.write WriteFilesCallback.FILE_ROOT
              (Value.vstr (pathString (WriteFilesCallback.getCommonPath b0.subject_files)))
              (some Dtype.str),
              WriterOp.reserve WriteFilesCallback.SEQ_FILES
                [b0.subject_files.length, b0.sequence_names.length] Dtype.str,
              WriterOp.reserve WriteFilesCallback.GT_FILES
                [b0.subject_files.length, b0.gt_names.length] Dtype.str] := by
          simp [WriteFilesCallback.on_start, hgt1]
        rw [hops2]
        exact List.mem_cons_of_mem _
          (List.mem_cons_of_mem _ (List.mem_cons_self _ _))

/-- C7: under the driver ordering contract, each of
`WriteSubjectCallback`, `WriteImageInformationCallback` and
`WriteFilesCallback` reserves each of its keys exactly once, during
`on_start`, before any fill targeting that key, and every subsequent
fill addresses only indices within the bounds reserved for that key. -/
theorem callbacks_reserve_fill_invariant (events : List (HookName × Bundle))
    (hc : DriverContract events = true) :
    ReserveFillInv (WriteSubjectCallback.runPerEvent events) ∧
    ReserveFillInv (WriteImageInformationCallback.runPerEvent none events) ∧
    ReserveFillInv (WriteFilesCallback.runPerEvent none events) :=
  ⟨wsc_reserve_fill_inv events hc, wic_reserve_fill_inv events hc,
    wfc_reserve_fill_inv events hc⟩

/-- A concrete single-subject driver run satisfying the contract. -/
def exEvents : List (HookName × Bundle) :=
  [(HookName.on_start, exBundle),
    (HookName.on_subject_start, exBundle),
    (HookName.on_image_file, exBundle),
    (HookName.on_gt_file, exBundle),
    (HookName.on_subject_end, exBundle),
    (HookName.on_end, exBundle)]

/-- Concrete instantiation of `callbacks_reserve_fill_invariant` on a
contract-conforming run. -/
theorem callbacks_reserve_fill_invariant_witness :
    DriverContract exEvents = true ∧
      (ReserveFillInv (WriteSubjectCallback.runPerEvent exEvents) ∧
        ReserveFillInv (WriteImageInformationCallback.runPerEvent none exEvents) ∧
        ReserveFillInv (WriteFilesCallback.runPerEvent none exEvents)) :=
  ⟨by decide, callbacks_reserve_fill_invariant exEvents (by decide)⟩
